import Mathlib

/-!
A shallow embedding of the core of the mkvauto repository (a Go program that
rips optical discs with MakeMKV and encodes the results with HandBrake),
together with proofs about the embedded definitions.

Modelling conventions:
* Go `time.Duration` (an `int64` count of nanoseconds) is embedded as `Int`.
* Go `time.Time` values are embedded as abstract `Nat` instants; the queue
  operations only store and clear them, never compute with them.
* Go `float64` progress values are embedded as `Rat`; the program only stores
  parsed decimal values and the constants `0` and `100`.
* Fallible parsing returns `Option`.
* Go maps are embedded as insertion-ordered association lists for their
  contents; where the Go code *iterates* over a map (whose iteration order the
  Go specification leaves undefined and the runtime randomises), the embedding
  takes the iteration order as an explicit parameter.
-/

namespace Mkvauto

/-! ## String helpers mirroring the Go standard library functions used -/

/-- `strings.HasPrefix` on character lists. -/
def hasPrefixChars : List Char → List Char → Bool
  | _, [] => true
  | [], _ :: _ => false
  | a :: as, b :: bs => a == b && hasPrefixChars as bs

/-- `strings.Contains` on character lists: the pattern occurs as a contiguous
substring. -/
def containsChars (pat : List Char) : List Char → Bool
  | [] => pat.isEmpty
  | c :: rest => hasPrefixChars (c :: rest) pat || containsChars pat rest

/-- `strings.Contains s pat`. -/
def strContains (s pat : String) : Bool :=
  containsChars pat.toList s.toList

/-- `strings.HasPrefix s pat`. -/
def strHasPre (s pat : String) : Bool :=
  hasPrefixChars s.toList pat.toList

/-- Value of a nonempty all-digit string, as in the core loop of
`strconv.Atoi`; `none` when the string is empty or has a non-digit. -/
def digitsVal : List Char → Option Nat
  | [] => none
  | cs => cs.foldl (fun acc c => match acc with
      | none => none
      | some n => if c.isDigit then some (n * 10 + (c.toNat - '0'.toNat)) else none)
      (some 0)

/-- `strconv.Atoi`: optional sign followed by digits.  Overflow of the Go
`int` type is not modelled. -/
def atoi (s : String) : Option Int :=
  match s.toList with
  | '+' :: ds => (digitsVal ds).map (fun n => (n : Int))
  | '-' :: ds => (digitsVal ds).map (fun n => -(n : Int))
  | ds => (digitsVal ds).map (fun n => (n : Int))

/-! ## `internal/disk/types.go` -/

/-- `disk.DiscType` (`DiscTypeDVD` / `DiscTypeBluRay`). -/
inductive DiscType
  | dvd
  | bluRay
deriving DecidableEq, Repr

/-- The character substitutions of the `strings.NewReplacer` in
`SanitizeFilename`: each listed character becomes an underscore. -/
def sanitizeReplaceChar (c : Char) : Char :=
  if c = '/' ∨ c = '\\' ∨ c = ':' ∨ c = '*' ∨ c = '?' ∨ c = '"' ∨
     c = '<' ∨ c = '>' ∨ c = '|' ∨ c = ' ' then '_' else c

/-- `strings.Trim(s, "_.")`: trim all leading and trailing underscores and
dots, on character lists. -/
def trimUnderscoreDot (cs : List Char) : List Char :=
  ((cs.dropWhile (fun c => c = '_' ∨ c = '.')).reverse.dropWhile
    (fun c => c = '_' ∨ c = '.')).reverse

/-- `disk.SanitizeFilename`: replace problematic filename characters by
underscores, trim leading/trailing underscores and dots, and fall back to
`"Unnamed_Disc"` when nothing remains. -/
def SanitizeFilename (name : String) : String :=
  let sanitized := trimUnderscoreDot (name.toList.map sanitizeReplaceChar)
  if sanitized = [] then "Unnamed_Disc" else String.mk sanitized

/-! ## `internal/makemkv/parser.go`: progress -/

/-- `makemkv.CalculatePercentage`: Go computes
`float64(current) / float64(max) * 100.0` guarding `max == 0`; the embedding
computes the same rational value. -/
def CalculatePercentage (current total max : Int) : Rat :=
  if max = 0 then 0
  else (current : Rat) / (max : Rat) * 100

/-! ## `internal/makemkv/parser.go` and `selector.go`: titles -/

/-- `makemkv.Title`.  `duration` is a `time.Duration`, i.e. an `Int` count of
nanoseconds. -/
structure Title where
  id : Int
  duration : Int
  name : String
  size : Int
  chapters : Int
deriving DecidableEq, Repr

instance : Inhabited Title := ⟨⟨0, 0, "", 0, 0⟩⟩

/-- One step of the running-maximum loop in `SelectTitles`
(`if title.Duration > maxDuration { maxDuration = title.Duration }`). -/
def maxDurStep (m : Int) (t : Title) : Int :=
  if t.duration > m then t.duration else m

/-- One step of the scan in `findLongestTitle`
(`if title.Duration > longest.Duration { longest = title }`). -/
def longestStep (longest t : Title) : Title :=
  if t.duration > longest.duration then t else longest

/-- `makemkv.findLongestTitle`: linear scan keeping the first title whose
duration strictly exceeds the running best; the zero `Title` on empty input. -/
def findLongestTitle (titles : List Title) : Title :=
  match titles with
  | [] => default
  | t :: ts => ts.foldl longestStep t

/-- `makemkv.SelectTitles`: movie mode (single longest title) when the running
maximum duration — initialised to `0` — reaches `movieThreshold`, otherwise
episode mode (all titles with duration at least `episodeThreshold`, in input
order). -/
def SelectTitles (titles : List Title) (movieThreshold episodeThreshold : Int) :
    List Title :=
  if titles.isEmpty then []
  else
    let maxDuration := titles.foldl maxDurStep 0
    if maxDuration ≥ movieThreshold then [findLongestTitle titles]
    else titles.filter (fun t => decide (t.duration ≥ episodeThreshold))

/-! ## Lemmas about the running-maximum fold of `SelectTitles` -/

theorem maxDurStep_le_left (m : Int) (t : Title) : m ≤ maxDurStep m t := by
  unfold maxDurStep
  split <;> omega

theorem maxDurStep_le_right (m : Int) (t : Title) : t.duration ≤ maxDurStep m t := by
  unfold maxDurStep
  split <;> omega

theorem foldl_maxDurStep_le_init (ts : List Title) (init : Int) :
    init ≤ ts.foldl maxDurStep init := by
  induction ts generalizing init with
  | nil => simp
  | cons t ts ih =>
    simp only [List.foldl_cons]
    exact le_trans (maxDurStep_le_left init t) (ih (maxDurStep init t))

theorem maxDurStep_cases (m : Int) (t : Title) :
    maxDurStep m t = t.duration ∨ maxDurStep m t = m := by
  unfold maxDurStep
  split
  · exact Or.inl rfl
  · exact Or.inr rfl

theorem foldl_maxDurStep_le_mem (ts : List Title) (init : Int) :
    ∀ t ∈ ts, t.duration ≤ ts.foldl maxDurStep init := by
  induction ts generalizing init with
  | nil => intro t ht; cases ht
  | cons u ts ih =>
    intro t ht
    simp only [List.foldl_cons]
    rcases List.mem_cons.mp ht with h | h
    · subst h
      exact le_trans (maxDurStep_le_right init t) (foldl_maxDurStep_le_init ts _)
    · exact ih (maxDurStep init u) t h

theorem foldl_maxDurStep_eq_init_or_mem (ts : List Title) (init : Int) :
    ts.foldl maxDurStep init = init ∨
      ∃ t ∈ ts, ts.foldl maxDurStep init = t.duration := by
  induction ts generalizing init with
  | nil => exact Or.inl rfl
  | cons u ts ih =>
    simp only [List.foldl_cons]
    rcases ih (maxDurStep init u) with h | ⟨t, ht, h⟩
    · rcases maxDurStep_cases init u with hc | hc
      · exact Or.inr ⟨u, List.mem_cons_self u ts, h.trans hc⟩
      · exact Or.inl (h.trans hc)
    · exact Or.inr ⟨t, List.mem_cons_of_mem u ht, h⟩

/-! ## Lemmas about `findLongestTitle` -/

theorem longestStep_duration_le_left (acc t : Title) :
    acc.duration ≤ (longestStep acc t).duration := by
  unfold longestStep
  split <;> omega

theorem longestStep_duration_le_right (acc t : Title) :
    t.duration ≤ (longestStep acc t).duration := by
  unfold longestStep
  split <;> omega

/-- Full characterisation of the `findLongestTitle` scan: the result dominates
the accumulator and every element, and it is either the accumulator itself or
the first element of the list strictly exceeding everything before it. -/
theorem foldl_longestStep_spec (ts : List Title) (acc : Title) :
    acc.duration ≤ (ts.foldl longestStep acc).duration ∧
    (∀ u ∈ ts, u.duration ≤ (ts.foldl longestStep acc).duration) ∧
    (ts.foldl longestStep acc = acc ∨
      ∃ pre u post, ts = pre ++ u :: post ∧ ts.foldl longestStep acc = u ∧
        acc.duration < u.duration ∧ ∀ v ∈ pre, v.duration < u.duration) := by
  induction ts generalizing acc with
  | nil => exact ⟨le_refl _, by simp, Or.inl rfl⟩
  | cons t ts ih =>
    obtain ⟨iha, ihb, ihc⟩ := ih (longestStep acc t)
    simp only [List.foldl_cons]
    have hacc : acc.duration ≤ (ts.foldl longestStep (longestStep acc t)).duration :=
      le_trans (longestStep_duration_le_left acc t) iha
    have hthd : t.duration ≤ (ts.foldl longestStep (longestStep acc t)).duration :=
      le_trans (longestStep_duration_le_right acc t) iha
    refine ⟨hacc, ?_, ?_⟩
    · intro u hu
      rcases List.mem_cons.mp hu with h | h
      · subst h; exact hthd
      · exact ihb u h
    · rcases ihc with h | ⟨pre, u, post, hsplit, heq, hlt, hpre⟩
      · rw [h]
        unfold longestStep
        split
        · rename_i hgt
          exact Or.inr ⟨[], t, ts, rfl, rfl, hgt, by simp⟩
        · exact Or.inl rfl
      · refine Or.inr ⟨t :: pre, u, post, by rw [hsplit]; rfl, heq, ?_, ?_⟩
        · exact lt_of_le_of_lt (longestStep_duration_le_left acc t) hlt
        · intro v hv
          rcases List.mem_cons.mp hv with h | h
          · rw [h]
            exact lt_of_le_of_lt (longestStep_duration_le_right acc t) hlt
          · exact hpre v h

theorem findLongestTitle_spec (t : Title) (ts : List Title) :
    ∃ pre post, t :: ts = pre ++ findLongestTitle (t :: ts) :: post ∧
      (∀ v ∈ pre, v.duration < (findLongestTitle (t :: ts)).duration) ∧
      (∀ u ∈ t :: ts, u.duration ≤ (findLongestTitle (t :: ts)).duration) := by
  obtain ⟨ha, hb, hc⟩ := foldl_longestStep_spec ts t
  have hall : ∀ u ∈ t :: ts, u.duration ≤ (findLongestTitle (t :: ts)).duration := by
    intro u hu
    rcases List.mem_cons.mp hu with h | h
    · subst h; exact ha
    · exact hb u h
  rcases hc with h | ⟨pre, u, post, hsplit, heq, hlt, hpre⟩
  · have hfl : findLongestTitle (t :: ts) = t := by
      simpa [findLongestTitle] using h
    refine ⟨[], ts, ?_, by simp, hall⟩
    rw [hfl]
    rfl
  · have hfl : findLongestTitle (t :: ts) = u := by
      simpa [findLongestTitle] using heq
    refine ⟨t :: pre, post, ?_, ?_, hall⟩
    · rw [hfl, hsplit]
      rfl
    · intro v hv
      rw [hfl]
      rcases List.mem_cons.mp hv with h | h
      · subst h
        exact hlt
      · exact hpre v h

theorem selectTitles_movie_branch (t : Title) (ts : List Title) (mT eT : Int)
    (h : mT ≤ (t :: ts).foldl maxDurStep 0) :
    SelectTitles (t :: ts) mT eT = [findLongestTitle (t :: ts)] := by
  have h' : mT ≤ ts.foldl maxDurStep (maxDurStep 0 t) := by simpa using h
  simp [SelectTitles, h']

theorem selectTitles_episode_branch (t : Title) (ts : List Title) (mT eT : Int)
    (h : ¬ mT ≤ (t :: ts).foldl maxDurStep 0) :
    SelectTitles (t :: ts) mT eT =
      (t :: ts).filter (fun x => decide (x.duration ≥ eT)) := by
  have h' : ¬ mT ≤ ts.foldl maxDurStep (maxDurStep 0 t) := by simpa using h
  simp [SelectTitles, h']

/-- For a nonempty title list with nonnegative durations, the movie-mode test
of `SelectTitles` (running maximum, initialised to `0`, at least the movie
threshold) coincides with "some title's duration reaches the threshold". -/
theorem movie_condition_iff (t : Title) (ts : List Title) (mT : Int)
    (hpos : ∀ u ∈ t :: ts, 0 ≤ u.duration) :
    mT ≤ (t :: ts).foldl maxDurStep 0 ↔ ∃ u ∈ t :: ts, mT ≤ u.duration := by
  constructor
  · intro h
    rcases foldl_maxDurStep_eq_init_or_mem (t :: ts) 0 with h0 | ⟨u, hu, hd⟩
    · refine ⟨t, List.mem_cons_self t ts, ?_⟩
      have := hpos t (List.mem_cons_self t ts)
      omega
    · exact ⟨u, hu, hd ▸ h⟩
  · rintro ⟨u, hu, hle⟩
    exact le_trans hle (foldl_maxDurStep_le_mem (t :: ts) 0 u hu)

/-- C1 (amended: all durations are assumed nonnegative, as they are for every
title the program constructs).  Title selection: if some title's duration
reaches `movieThreshold`, the selection is exactly one title of maximum
duration, the first maximum in input order; otherwise it is exactly the
titles whose duration reaches `episodeThreshold`, in input order; the empty
list selects nothing. -/
theorem selectTitles_spec (titles : List Title) (movieThreshold episodeThreshold : Int)
    (hpos : ∀ t ∈ titles, 0 ≤ t.duration) :
    (titles = [] → SelectTitles titles movieThreshold episodeThreshold = []) ∧
    ((∃ t ∈ titles, movieThreshold ≤ t.duration) →
      ∃ pre sel post, SelectTitles titles movieThreshold episodeThreshold = [sel] ∧
        titles = pre ++ sel :: post ∧
        (∀ v ∈ pre, v.duration < sel.duration) ∧
        (∀ u ∈ titles, u.duration ≤ sel.duration)) ∧
    ((¬ ∃ t ∈ titles, movieThreshold ≤ t.duration) →
      SelectTitles titles movieThreshold episodeThreshold =
        titles.filter (fun t => decide (t.duration ≥ episodeThreshold))) := by
  cases titles with
  | nil =>
    refine ⟨fun _ => rfl, ?_, fun _ => rfl⟩
    rintro ⟨t, ht, -⟩
    cases ht
  | cons t ts =>
    have hiff := movie_condition_iff t ts movieThreshold hpos
    refine ⟨(fun h => by cases h), ?_, ?_⟩
    · intro hex
      have hm : movieThreshold ≤ (t :: ts).foldl maxDurStep 0 := hiff.mpr hex
      obtain ⟨pre, post, hsplit, hpre, hmax⟩ := findLongestTitle_spec t ts
      exact ⟨pre, findLongestTitle (t :: ts), post,
        selectTitles_movie_branch t ts _ _ hm, hsplit, hpre, hmax⟩
    · intro hnex
      exact selectTitles_episode_branch t ts _ _ (fun h => hnex (hiff.mp h))

/-- Witness for `selectTitles_spec` at durations `[70, 5]` with thresholds
`(60, 18)` (the spec's own example, in abstract duration units). -/
theorem selectTitles_spec_witness :
    (([⟨1, 70, "", 0, 0⟩, ⟨2, 5, "", 0, 0⟩] : List Title) = [] →
      SelectTitles [⟨1, 70, "", 0, 0⟩, ⟨2, 5, "", 0, 0⟩] 60 18 = []) ∧
    ((∃ t ∈ ([⟨1, 70, "", 0, 0⟩, ⟨2, 5, "", 0, 0⟩] : List Title), (60 : Int) ≤ t.duration) →
      ∃ pre sel post, SelectTitles [⟨1, 70, "", 0, 0⟩, ⟨2, 5, "", 0, 0⟩] 60 18 = [sel] ∧
        ([⟨1, 70, "", 0, 0⟩, ⟨2, 5, "", 0, 0⟩] : List Title) = pre ++ sel :: post ∧
        (∀ v ∈ pre, v.duration < sel.duration) ∧
        (∀ u ∈ ([⟨1, 70, "", 0, 0⟩, ⟨2, 5, "", 0, 0⟩] : List Title), u.duration ≤ sel.duration)) ∧
    ((¬ ∃ t ∈ ([⟨1, 70, "", 0, 0⟩, ⟨2, 5, "", 0, 0⟩] : List Title), (60 : Int) ≤ t.duration) →
      SelectTitles [⟨1, 70, "", 0, 0⟩, ⟨2, 5, "", 0, 0⟩] 60 18 =
        List.filter (fun t => decide (t.duration ≥ (18 : Int)))
          [⟨1, 70, "", 0, 0⟩, ⟨2, 5, "", 0, 0⟩]) :=
  selectTitles_spec [⟨1, 70, "", 0, 0⟩, ⟨2, 5, "", 0, 0⟩] 60 18 (by decide)

/-- The claim as frozen is false without the nonnegativity amendment: with a
single title of (negative) duration `-5` and both thresholds `0`, no title's
duration reaches the movie threshold, so the claim requires episode mode
(which selects nothing), but the code's running maximum starts at `0`,
triggers movie mode, and selects the title. -/
theorem selectTitles_claim_counterexample :
    (¬ ∃ t ∈ ([⟨0, -5, "", 0, 0⟩] : List Title), (0 : Int) ≤ t.duration) ∧
    SelectTitles [⟨0, -5, "", 0, 0⟩] 0 0 = [⟨0, -5, "", 0, 0⟩] ∧
    SelectTitles [⟨0, -5, "", 0, 0⟩] 0 0 ≠
      List.filter (fun t => decide (t.duration ≥ (0 : Int)))
        [⟨0, -5, "", 0, 0⟩] := by
  decide

/-! ## C7: progress percentage -/

/-- C7.  Progress percentage: when `max > 0` the result is
`current / max * 100`; the `total` field of the progress triplet never affects
the result; when `max = 0` the result is `0`. -/
theorem calculatePercentage_spec (current total max : Int) :
    (0 < max → CalculatePercentage current total max = (current : Rat) / (max : Rat) * 100) ∧
    (∀ total', CalculatePercentage current total max = CalculatePercentage current total' max) ∧
    (max = 0 → CalculatePercentage current total max = 0) := by
  refine ⟨?_, fun _ => rfl, ?_⟩
  · intro h
    unfold CalculatePercentage
    rw [if_neg (by omega)]
  · intro h
    unfold CalculatePercentage
    rw [if_pos h]

/-- Witness for `calculatePercentage_spec` at the triplet `(50, 7, 200)`. -/
theorem calculatePercentage_spec_witness :
    ((0 : Int) < 200 → CalculatePercentage 50 7 200 = (50 : Rat) / (200 : Rat) * 100) ∧
    (∀ total', CalculatePercentage 50 7 200 = CalculatePercentage 50 total' 200) ∧
    ((200 : Int) = 0 → CalculatePercentage 50 7 200 = 0) :=
  calculatePercentage_spec 50 7 200

/-! ## C10: filename sanitisation -/

/-- The characters `SanitizeFilename` replaces. -/
def badFilenameChars : List Char :=
  ['/', '\\', ':', '*', '?', '"', '<', '>', '|', ' ']

theorem sanitizeReplaceChar_not_bad (c : Char) :
    sanitizeReplaceChar c ∉ badFilenameChars := by
  unfold sanitizeReplaceChar badFilenameChars
  split
  · decide
  · rename_i h
    simp only [List.mem_cons, List.not_mem_nil, or_false]
    tauto

theorem mem_trimUnderscoreDot (cs : List Char) (c : Char)
    (h : c ∈ trimUnderscoreDot cs) : c ∈ cs := by
  unfold trimUnderscoreDot at h
  rw [List.mem_reverse] at h
  have h1 := (List.dropWhile_suffix
    (fun c => decide (c = '_' ∨ c = '.'))).sublist.subset h
  rw [List.mem_reverse] at h1
  exact (List.dropWhile_suffix (fun c => decide (c = '_' ∨ c = '.'))).sublist.subset h1

theorem head?_dropWhile_not_trim (q : Char → Bool) (cs : List Char) (c : Char)
    (h : (cs.dropWhile q).head? = some c) : q c = false := by
  induction cs with
  | nil => cases h
  | cons a as ih =>
    rw [List.dropWhile_cons] at h
    split at h
    · exact ih h
    · rename_i hq
      cases h
      exact Bool.of_not_eq_true hq

theorem getLast?_trimUnderscoreDot (cs : List Char) (c : Char)
    (h : (trimUnderscoreDot cs).getLast? = some c) : ¬(c = '_' ∨ c = '.') := by
  unfold trimUnderscoreDot at h
  rw [List.getLast?_reverse] at h
  have := head?_dropWhile_not_trim _ _ _ h
  simpa using this

theorem head?_trimUnderscoreDot (cs : List Char) (c : Char)
    (h : (trimUnderscoreDot cs).head? = some c) : ¬(c = '_' ∨ c = '.') := by
  unfold trimUnderscoreDot at h
  rw [List.head?_reverse] at h
  set q : Char → Bool := fun c => decide (c = '_' ∨ c = '.') with hq
  set d1 : List Char := List.dropWhile q cs with hd1
  obtain ⟨u, hu⟩ := List.dropWhile_suffix (l := d1.reverse) q
  by_cases hnil : List.dropWhile q d1.reverse = []
  · rw [hnil] at h
    cases h
  · have h3 : (List.dropWhile q d1.reverse).getLast? = d1.reverse.getLast? := by
      conv_rhs => rw [← hu]
      rw [List.getLast?_append_of_ne_nil u hnil]
    have h4 : d1.head? = some c := by
      rw [← List.getLast?_reverse d1, ← h3]
      exact h
    rw [hd1] at h4
    have := head?_dropWhile_not_trim q cs c h4
    simpa [hq] using this

/-- C10.  `SanitizeFilename` postcondition: the result is nonempty, contains
no problematic character (`/ \ : * ? " < > |` or space), neither begins nor
ends with an underscore or a dot, and is the fallback `"Unnamed_Disc"`
exactly when replacement and trimming leave nothing. -/
theorem sanitizeFilename_spec (name : String) :
    SanitizeFilename name ≠ "" ∧
    (∀ c ∈ (SanitizeFilename name).toList, c ∉ badFilenameChars) ∧
    (∀ c, (SanitizeFilename name).toList.head? = some c → ¬(c = '_' ∨ c = '.')) ∧
    (∀ c, (SanitizeFilename name).toList.getLast? = some c → ¬(c = '_' ∨ c = '.')) ∧
    (trimUnderscoreDot (name.toList.map sanitizeReplaceChar) = [] →
      SanitizeFilename name = "Unnamed_Disc") := by
  unfold SanitizeFilename
  by_cases hnil : trimUnderscoreDot (name.toList.map sanitizeReplaceChar) = []
  · rw [if_pos hnil]
    refine ⟨by decide, by decide, ?_, ?_, fun _ => rfl⟩
    · intro c hc
      simp only [show "Unnamed_Disc".toList.head? = some 'U' from rfl,
        Option.some.injEq] at hc
      subst hc
      decide
    · intro c hc
      simp only [show "Unnamed_Disc".toList.getLast? = some 'c' from rfl,
        Option.some.injEq] at hc
      subst hc
      decide
  · rw [if_neg hnil]
    refine ⟨?_, ?_, ?_, ?_, fun h => absurd h hnil⟩
    · intro h
      exact hnil (congrArg String.data h)
    · intro c hc
      have hmem : c ∈ name.toList.map sanitizeReplaceChar :=
        mem_trimUnderscoreDot _ c hc
      obtain ⟨x, -, hx⟩ := List.mem_map.mp hmem
      exact hx ▸ sanitizeReplaceChar_not_bad x
    · intro c hc
      exact head?_trimUnderscoreDot _ c hc
    · intro c hc
      exact getLast?_trimUnderscoreDot _ c hc

/-- Witness for `sanitizeFilename_spec` at the input `" My:Disc. "`. -/
theorem sanitizeFilename_spec_witness :
    SanitizeFilename " My:Disc. " ≠ "" ∧
    (∀ c ∈ (SanitizeFilename " My:Disc. ").toList, c ∉ badFilenameChars) ∧
    (∀ c, (SanitizeFilename " My:Disc. ").toList.head? = some c → ¬(c = '_' ∨ c = '.')) ∧
    (∀ c, (SanitizeFilename " My:Disc. ").toList.getLast? = some c → ¬(c = '_' ∨ c = '.')) ∧
    (trimUnderscoreDot (" My:Disc. ".toList.map sanitizeReplaceChar) = [] →
      SanitizeFilename " My:Disc. " = "Unnamed_Disc") :=
  sanitizeFilename_spec " My:Disc. "

/-! ## `internal/encode/queue.go`: the encode queue

The Go queue guards a slice of `*QueueItem` with one reader/writer lock, so
every public operation is atomic; each operation is embedded as a pure
function on the item list.  Operations that mutate at most one item return a
`Bool` alongside the new list recording whether `persistence.Save` was
reached (the Go functions return `nil` without saving when no item matches
the id). -/

/-- `encode.ItemStatus`. -/
inductive ItemStatus
  | queued
  | encoding
  | paused
  | complete
  | failed
deriving DecidableEq, Repr

/-- `encode.QueueItem`.  Times are abstract `Nat` instants, progress is the
`Rat` embedding of the Go `float64`. -/
structure QueueItem where
  id : String
  sourcePath : String
  destPath : String
  discType : DiscType
  discName : String
  titleName : String
  status : ItemStatus
  progress : Rat
  createdAt : Nat
  startedAt : Option Nat
  completedAt : Option Nat
  error : String
deriving DecidableEq, Repr

namespace Queue

/-- The `for … range` / first-matching-id mutation pattern shared by
`UpdateProgress`, `SetStatus` and `Fail`: update the first item whose id
matches and report whether any match was found (i.e. whether the Go code
reached `persistence.Save`). -/
def updateFirst (items : List QueueItem) (id : String) (f : QueueItem → QueueItem) :
    List QueueItem × Bool :=
  match items with
  | [] => ([], false)
  | i :: rest =>
    if i.id = id then (f i :: rest, true)
    else
      let r := updateFirst rest id f
      (i :: r.1, r.2)

/-- `Queue.Add`: append, no duplicate check. -/
def Add (items : List QueueItem) (item : QueueItem) : List QueueItem :=
  items ++ [item]

/-- `Queue.GetNext`: first item with status Queued, nil if none. -/
def GetNext (items : List QueueItem) : Option QueueItem :=
  items.find? (fun i => i.status == ItemStatus.queued)

/-- `Queue.UpdateProgress`. -/
def UpdateProgress (items : List QueueItem) (id : String) (progress : Rat) :
    List QueueItem × Bool :=
  updateFirst items id (fun i => { i with progress := progress })

/-- `Queue.SetStatus`: sets the status and stamps `StartedAt` on entry to
Encoding, `CompletedAt` on entry to Complete or Failed. -/
def SetStatus (items : List QueueItem) (id : String) (status : ItemStatus) (now : Nat) :
    List QueueItem × Bool :=
  updateFirst items id (fun i =>
    match status with
    | ItemStatus.encoding => { i with status := status, startedAt := some now }
    | ItemStatus.complete => { i with status := status, completedAt := some now }
    | ItemStatus.failed => { i with status := status, completedAt := some now }
    | _ => { i with status := status })

/-- `Queue.Complete`: `SetStatus(id, StatusComplete)`. -/
def Complete (items : List QueueItem) (id : String) (now : Nat) :
    List QueueItem × Bool :=
  SetStatus items id ItemStatus.complete now

/-- `Queue.Fail`: sets status Failed, records the error text, stamps
`CompletedAt`. -/
def Fail (items : List QueueItem) (id : String) (errText : String) (now : Nat) :
    List QueueItem × Bool :=
  updateFirst items id (fun i =>
    { i with status := ItemStatus.failed, error := errText, completedAt := some now })

/-- `Queue.Pause`: `SetStatus(id, StatusPaused)`. -/
def Pause (items : List QueueItem) (id : String) (now : Nat) :
    List QueueItem × Bool :=
  SetStatus items id ItemStatus.paused now

/-- `Queue.Resume`: `SetStatus(id, StatusQueued)`. -/
def Resume (items : List QueueItem) (id : String) (now : Nat) :
    List QueueItem × Bool :=
  SetStatus items id ItemStatus.queued now

/-- `Queue.ClearCompleted`: keep items that are neither Complete nor
Failed. -/
def ClearCompleted (items : List QueueItem) : List QueueItem :=
  items.filter (fun i =>
    !(i.status == ItemStatus.complete) && !(i.status == ItemStatus.failed))

/-- The per-item reset of `Queue.RetryFailed`. -/
def retryReset (i : QueueItem) : QueueItem :=
  if i.status = ItemStatus.failed ∨ i.status = ItemStatus.encoding then
    { i with
        status := ItemStatus.queued
        progress := 0
        error := ""
        startedAt := none
        completedAt := none }
  else i

/-- `Queue.RetryFailed`: reset every Failed and every (stuck) Encoding item
back to Queued, clearing progress, error and both timestamps. -/
def RetryFailed (items : List QueueItem) : List QueueItem :=
  items.map retryReset

/-- `Queue.Remove`: drop every item with the given id. -/
def Remove (items : List QueueItem) (id : String) : List QueueItem :=
  items.filter (fun i => !(i.id == id))

/-- The per-item crash-recovery reset inside `Queue.LoadState`. -/
def loadReset (i : QueueItem) : QueueItem :=
  if i.status = ItemStatus.encoding then
    { i with status := ItemStatus.queued, progress := 0, startedAt := none }
  else i

/-- The in-memory effect of `Queue.LoadState` on the loaded items: any item
stuck in Encoding from an interrupted session is reset to Queued with
progress `0` and a cleared start time. -/
def LoadState (items : List QueueItem) : List QueueItem :=
  items.map loadReset

end Queue

/-! ## C3: crash recovery on `LoadState` -/

/-- C3.  After `LoadState`, every item that was persisted with status
Encoding has status Queued, progress `0` and a cleared start time (all other
fields kept); every item persisted in any other status is loaded unchanged.
The list of items itself (length and order) is preserved. -/
theorem loadState_spec (items : List QueueItem) (i : Nat) (h : i < items.length) :
    (Queue.LoadState items).length = items.length ∧
    ((items.get ⟨i, h⟩).status = ItemStatus.encoding →
      (Queue.LoadState items).get ⟨i, by simpa [Queue.LoadState] using h⟩ =
        { items.get ⟨i, h⟩ with
            status := ItemStatus.queued
            progress := 0
            startedAt := none }) ∧
    ((items.get ⟨i, h⟩).status ≠ ItemStatus.encoding →
      (Queue.LoadState items).get ⟨i, by simpa [Queue.LoadState] using h⟩ =
        items.get ⟨i, h⟩) := by
  refine ⟨by simp [Queue.LoadState], ?_, ?_⟩
  · intro henc
    simp only [Queue.LoadState, List.get_map]
    unfold Queue.loadReset
    rw [if_pos henc]
  · intro henc
    simp only [Queue.LoadState, List.get_map]
    unfold Queue.loadReset
    rw [if_neg henc]

/-- A sample item persisted in status Encoding, for witnesses. -/
def sampleEncodingItem : QueueItem :=
  ⟨"a", "s", "d", DiscType.dvd, "n", "t", ItemStatus.encoding, 37, 1, some 2, none, "e"⟩

/-- A sample item persisted in status Complete, for witnesses. -/
def sampleCompleteItem : QueueItem :=
  ⟨"b", "s2", "d2", DiscType.bluRay, "n2", "t2", ItemStatus.complete, 100, 1, some 2, some 3, ""⟩

/-- Witness for `loadState_spec`: a two-item queue whose first item was
persisted as Encoding. -/
theorem loadState_spec_witness :
    (Queue.LoadState [sampleEncodingItem, sampleCompleteItem]).length =
      [sampleEncodingItem, sampleCompleteItem].length ∧
    (([sampleEncodingItem, sampleCompleteItem].get ⟨0, by decide⟩).status =
        ItemStatus.encoding →
      (Queue.LoadState [sampleEncodingItem, sampleCompleteItem]).get
          ⟨0, by simp [Queue.LoadState]⟩ =
        { [sampleEncodingItem, sampleCompleteItem].get ⟨0, by decide⟩ with
            status := ItemStatus.queued
            progress := 0
            startedAt := none }) ∧
    (([sampleEncodingItem, sampleCompleteItem].get ⟨0, by decide⟩).status ≠
        ItemStatus.encoding →
      (Queue.LoadState [sampleEncodingItem, sampleCompleteItem]).get
          ⟨0, by simp [Queue.LoadState]⟩ =
        [sampleEncodingItem, sampleCompleteItem].get ⟨0, by decide⟩) :=
  loadState_spec [sampleEncodingItem, sampleCompleteItem] 0 (by decide)

/-! ## C4: `RetryFailed` -/

/-- C4.  `RetryFailed`: every item whose status was Failed or Encoding is
reset to Queued with progress `0`, empty error text and cleared start and
completion times; every other item is completely unchanged; length and order
of the queue are preserved. -/
theorem retryFailed_spec (items : List QueueItem) (i : Nat) (h : i < items.length) :
    (Queue.RetryFailed items).length = items.length ∧
    (((items.get ⟨i, h⟩).status = ItemStatus.failed ∨
        (items.get ⟨i, h⟩).status = ItemStatus.encoding) →
      (Queue.RetryFailed items).get ⟨i, by simpa [Queue.RetryFailed] using h⟩ =
        { items.get ⟨i, h⟩ with
            status := ItemStatus.queued
            progress := 0
            error := ""
            startedAt := none
            completedAt := none }) ∧
    (¬((items.get ⟨i, h⟩).status = ItemStatus.failed ∨
        (items.get ⟨i, h⟩).status = ItemStatus.encoding) →
      (Queue.RetryFailed items).get ⟨i, by simpa [Queue.RetryFailed] using h⟩ =
        items.get ⟨i, h⟩) := by
  refine ⟨by simp [Queue.RetryFailed], ?_, ?_⟩
  · intro hcond
    simp only [Queue.RetryFailed, List.get_map]
    unfold Queue.retryReset
    rw [if_pos hcond]
  · intro hcond
    simp only [Queue.RetryFailed, List.get_map]
    unfold Queue.retryReset
    rw [if_neg hcond]

/-- A sample item in status Failed, for witnesses. -/
def sampleFailedItem : QueueItem :=
  ⟨"f", "sf", "df", DiscType.dvd, "nf", "tf", ItemStatus.failed, 12, 4, some 5, some 6, "boom"⟩

/-- Witness for `retryFailed_spec`: a queue holding one Failed item. -/
theorem retryFailed_spec_witness :
    (Queue.RetryFailed [sampleFailedItem]).length = [sampleFailedItem].length ∧
    ((([sampleFailedItem].get ⟨0, by decide⟩).status = ItemStatus.failed ∨
        ([sampleFailedItem].get ⟨0, by decide⟩).status = ItemStatus.encoding) →
      (Queue.RetryFailed [sampleFailedItem]).get ⟨0, by simp [Queue.RetryFailed]⟩ =
        { [sampleFailedItem].get ⟨0, by decide⟩ with
            status := ItemStatus.queued
            progress := 0
            error := ""
            startedAt := none
            completedAt := none }) ∧
    (¬(([sampleFailedItem].get ⟨0, by decide⟩).status = ItemStatus.failed ∨
        ([sampleFailedItem].get ⟨0, by decide⟩).status = ItemStatus.encoding) →
      (Queue.RetryFailed [sampleFailedItem]).get ⟨0, by simp [Queue.RetryFailed]⟩ =
        [sampleFailedItem].get ⟨0, by decide⟩) :=
  retryFailed_spec [sampleFailedItem] 0 (by decide)

/-! ## C9: unknown-id mutations are no-ops -/

theorem updateFirst_no_match (items : List QueueItem) (id : String)
    (f : QueueItem → QueueItem) (h : ∀ i ∈ items, i.id ≠ id) :
    Queue.updateFirst items id f = (items, false) := by
  induction items with
  | nil => rfl
  | cons i rest ih =>
    unfold Queue.updateFirst
    rw [if_neg (h i (List.mem_cons_self i rest))]
    have hr := ih (fun j hj => h j (List.mem_cons_of_mem i hj))
    simp [hr]

/-- C9.  Mutations with an id that matches no item are no-ops:
`UpdateProgress`, `SetStatus` and `Fail` leave the queue unchanged and never
reach `persistence.Save` (the `Bool` component), hence return `nil`. -/
theorem unknown_id_mutations_noop (items : List QueueItem) (id : String)
    (p : Rat) (st : ItemStatus) (now : Nat) (e : String)
    (h : ∀ i ∈ items, i.id ≠ id) :
    Queue.UpdateProgress items id p = (items, false) ∧
    Queue.SetStatus items id st now = (items, false) ∧
    Queue.Fail items id e now = (items, false) :=
  ⟨updateFirst_no_match items id _ h, updateFirst_no_match items id _ h,
    updateFirst_no_match items id _ h⟩

/-- Witness for `unknown_id_mutations_noop` on a one-item queue and a fresh
id. -/
theorem unknown_id_mutations_noop_witness :
    Queue.UpdateProgress [sampleCompleteItem] "zzz" 55 = ([sampleCompleteItem], false) ∧
    Queue.SetStatus [sampleCompleteItem] "zzz" ItemStatus.encoding 9 = ([sampleCompleteItem], false) ∧
    Queue.Fail [sampleCompleteItem] "zzz" "err" 9 = ([sampleCompleteItem], false) :=
  unknown_id_mutations_noop [sampleCompleteItem] "zzz" 55 ItemStatus.encoding 9 "err"
    (by decide)

/-! ## C2: at most one Encoding item in every reachable state

The queue is guarded by a single lock, so each operation is one atomic
transition.  The environment (UI command handlers and the progress
forwarder) may run `Add` (both call sites construct Queued items),
`SetStatus` with any status other than Encoding (`Pause`, `Resume`, and
`Complete` are such calls), `UpdateProgress`, `Fail`, `RetryFailed`,
`ClearCompleted` and `Remove` at any time.  `SetStatus(id, StatusEncoding)`
occurs at exactly one place in the program, in `Worker.encodeItem`, and the
worker loop is strictly sequential: `GetNext`, then mark Encoding, then
drive the encode to one of its terminal dispositions (`Complete`, `Fail`,
or `Remove`).  The worker's position in that sequence is its phase.

The mark-Encoding step has an error path: `SetStatus` mutates the matched
item to Encoding in memory *before* `persistence.Save`, and when `Save`
fails `encodeItem` returns early (worker.go:96-99) with no terminal
disposition — the worker goes back to its tick loop while the item stays
Encoding.  The `Step` relation therefore carries a Bool index: `true` for
every step except the worker's mark-Encoding whose save failed, which is
indexed `false` (other operations' save failures do not alter control flow
or the in-memory state, so they need no separate step). -/

inductive WorkerPhase
  | idle
  | gotNext (id : String)
  | working (id : String)
deriving DecidableEq, Repr

/-- Queue contents plus the worker's position in its per-item sequence. -/
structure SysState where
  items : List QueueItem
  phase : WorkerPhase
deriving DecidableEq, Repr

/-- One atomic transition of the system: any environment call, or one step
of the worker's use of the queue.  The Bool index is `false` exactly for the
worker's mark-Encoding step whose persistence save failed. -/
inductive Step : Bool → SysState → SysState → Prop
  | add (s : SysState) (item : QueueItem) (hq : item.status = ItemStatus.queued) :
      Step true s ⟨Queue.Add s.items item, s.phase⟩
  | envSetStatus (s : SysState) (id : String) (st : ItemStatus) (now : Nat)
      (hst : st ≠ ItemStatus.encoding) :
      Step true s ⟨(Queue.SetStatus s.items id st now).1, s.phase⟩
  | envUpdateProgress (s : SysState) (id : String) (p : Rat) :
      Step true s ⟨(Queue.UpdateProgress s.items id p).1, s.phase⟩
  | envFail (s : SysState) (id e : String) (now : Nat) :
      Step true s ⟨(Queue.Fail s.items id e now).1, s.phase⟩
  | envRetryFailed (s : SysState) :
      Step true s ⟨Queue.RetryFailed s.items, s.phase⟩
  | envClearCompleted (s : SysState) :
      Step true s ⟨Queue.ClearCompleted s.items, s.phase⟩
  | envRemove (s : SysState) (id : String) :
      Step true s ⟨Queue.Remove s.items id, s.phase⟩
  | workerGetNext (s : SysState) (item : QueueItem)
      (hphase : s.phase = WorkerPhase.idle)
      (hget : Queue.GetNext s.items = some item) :
      Step true s ⟨s.items, WorkerPhase.gotNext item.id⟩
  | workerSetEncoding (s : SysState) (id : String) (now : Nat)
      (hphase : s.phase = WorkerPhase.gotNext id) :
      Step true s ⟨(Queue.SetStatus s.items id ItemStatus.encoding now).1,
        WorkerPhase.working id⟩
  | workerSetEncodingSaveFail (s : SysState) (id : String) (now : Nat)
      (hphase : s.phase = WorkerPhase.gotNext id)
      (hsaved : (Queue.SetStatus s.items id ItemStatus.encoding now).2 = true) :
      Step false s ⟨(Queue.SetStatus s.items id ItemStatus.encoding now).1,
        WorkerPhase.idle⟩
  | workerComplete (s : SysState) (id : String) (now : Nat)
      (hphase : s.phase = WorkerPhase.working id) :
      Step true s ⟨(Queue.Complete s.items id now).1, WorkerPhase.idle⟩
  | workerFail (s : SysState) (id e : String) (now : Nat)
      (hphase : s.phase = WorkerPhase.working id) :
      Step true s ⟨(Queue.Fail s.items id e now).1, WorkerPhase.idle⟩
  | workerRemove (s : SysState) (id : String)
      (hphase : s.phase = WorkerPhase.working id) :
      Step true s ⟨Queue.Remove s.items id, WorkerPhase.idle⟩

/-- A transition of the full system, a save failure in the mark-Encoding
step allowed (this is the relation the frozen claim quantifies over). -/
def StepAny (s s2 : SysState) : Prop :=
  ∃ b, Step b s s2

/-- Number of items with status Encoding. -/
def encCount (items : List QueueItem) : Nat :=
  List.countP (fun i => i.status == ItemStatus.encoding) items

/-- No item has status Encoding. -/
def NoEncoding (items : List QueueItem) : Prop :=
  ∀ i ∈ items, i.status ≠ ItemStatus.encoding

/-- Inductive invariant while the worker holds an item: every Encoding item
is the first item bearing the worker's id, and nothing after that first
bearer is Encoding. -/
def EncInv : List QueueItem → String → Prop
  | [], _ => True
  | i :: rest, id =>
    if i.id = id then ∀ j ∈ rest, j.status ≠ ItemStatus.encoding
    else i.status ≠ ItemStatus.encoding ∧ EncInv rest id

/-- The inductive invariant of the whole system. -/
def Inv (s : SysState) : Prop :=
  match s.phase with
  | WorkerPhase.working id => EncInv s.items id
  | _ => NoEncoding s.items

theorem noEncoding_encInv (items : List QueueItem) (id : String)
    (h : NoEncoding items) : EncInv items id := by
  induction items with
  | nil => trivial
  | cons i rest ih =>
    unfold EncInv
    split
    · exact fun j hj => h j (List.mem_cons_of_mem i hj)
    · exact ⟨h i (List.mem_cons_self i rest),
        ih (fun j hj => h j (List.mem_cons_of_mem i hj))⟩

theorem noEncoding_encCount (items : List QueueItem) (h : NoEncoding items) :
    encCount items = 0 := by
  unfold encCount
  rw [List.countP_eq_zero]
  intro i hi
  simpa using h i hi

theorem encInv_encCount (items : List QueueItem) (id : String)
    (h : EncInv items id) : encCount items ≤ 1 := by
  induction items with
  | nil => simp [encCount]
  | cons i rest ih =>
    unfold EncInv at h
    rw [encCount, List.countP_cons]
    split at h
    · have h0 : List.countP (fun i => i.status == ItemStatus.encoding) rest = 0 := by
        rw [List.countP_eq_zero]
        intro j hj
        simpa using h j hj
      rw [h0]
      split <;> simp
    · obtain ⟨hne, hrest⟩ := h
      have := ih hrest
      rw [encCount] at this
      have hpi : (i.status == ItemStatus.encoding) = false := by
        simpa using hne
      rw [hpi]
      simpa using this

theorem mem_updateFirst (items : List QueueItem) (id : String)
    (f : QueueItem → QueueItem) (j : QueueItem)
    (h : j ∈ (Queue.updateFirst items id f).1) :
    j ∈ items ∨ ∃ x ∈ items, j = f x := by
  induction items with
  | nil => cases h
  | cons i rest ih =>
    unfold Queue.updateFirst at h
    split at h
    · rcases List.mem_cons.mp h with h1 | h1
      · exact Or.inr ⟨i, List.mem_cons_self i rest, h1⟩
      · exact Or.inl (List.mem_cons_of_mem i h1)
    · rcases List.mem_cons.mp h with h1 | h1
      · exact Or.inl (h1 ▸ List.mem_cons_self i rest)
      · rcases ih h1 with h2 | ⟨x, hx, h2⟩
        · exact Or.inl (List.mem_cons_of_mem i h2)
        · exact Or.inr ⟨x, List.mem_cons_of_mem i hx, h2⟩

theorem noEncoding_updateFirst (items : List QueueItem) (id : String)
    (f : QueueItem → QueueItem)
    (henc : ∀ x, (f x).status = ItemStatus.encoding → x.status = ItemStatus.encoding)
    (h : NoEncoding items) : NoEncoding (Queue.updateFirst items id f).1 := by
  intro j hj
  rcases mem_updateFirst items id f j hj with h1 | ⟨x, hx, h1⟩
  · exact h j h1
  · intro habs
    exact h x hx (henc x (h1 ▸ habs))

theorem encInv_updateFirst (items : List QueueItem) (id pid : String)
    (f : QueueItem → QueueItem)
    (hid : ∀ x, (f x).id = x.id)
    (henc : ∀ x, (f x).status = ItemStatus.encoding → x.status = ItemStatus.encoding)
    (h : EncInv items id) : EncInv (Queue.updateFirst items pid f).1 id := by
  induction items with
  | nil => trivial
  | cons i rest ih =>
    unfold EncInv at h
    unfold Queue.updateFirst
    split
    · unfold EncInv
      rw [hid i]
      split at h
      · rw [if_pos (by assumption)]
        exact h
      · rw [if_neg (by assumption)]
        exact ⟨fun habs => h.1 (henc i habs), h.2⟩
    · unfold EncInv
      split at h
      · rw [if_pos (by assumption)]
        intro j hj
        rcases mem_updateFirst rest pid f j hj with h1 | ⟨x, hx, h1⟩
        · exact h j h1
        · intro habs
          exact h x hx (henc x (h1 ▸ habs))
      · rw [if_neg (by assumption)]
        exact ⟨h.1, ih h.2⟩

theorem encInv_updateFirst_self (items : List QueueItem) (id : String)
    (f : QueueItem → QueueItem)
    (hid : ∀ x, (f x).id = x.id)
    (h : NoEncoding items) : EncInv (Queue.updateFirst items id f).1 id := by
  induction items with
  | nil => trivial
  | cons i rest ih =>
    unfold Queue.updateFirst
    split
    · unfold EncInv
      rw [hid i, if_pos (by assumption)]
      exact fun j hj => h j (List.mem_cons_of_mem i hj)
    · unfold EncInv
      rw [if_neg (by assumption)]
      exact ⟨h i (List.mem_cons_self i rest),
        ih (fun j hj => h j (List.mem_cons_of_mem i hj))⟩

theorem encInv_clear_self (items : List QueueItem) (id : String)
    (f : QueueItem → QueueItem)
    (hnonenc : ∀ x, (f x).status ≠ ItemStatus.encoding)
    (h : EncInv items id) : NoEncoding (Queue.updateFirst items id f).1 := by
  induction items with
  | nil => intro j hj; cases hj
  | cons i rest ih =>
    unfold EncInv at h
    unfold Queue.updateFirst
    split at h
    · rw [if_pos (by assumption)]
      intro j hj
      rcases List.mem_cons.mp hj with h1 | h1
      · exact h1 ▸ hnonenc i
      · exact h j h1
    · rw [if_neg (by assumption)]
      intro j hj
      rcases List.mem_cons.mp hj with h1 | h1
      · exact h1 ▸ h.1
      · exact ih h.2 j h1

theorem encInv_enc_mem_id (items : List QueueItem) (id : String)
    (h : EncInv items id) :
    ∀ j ∈ items, j.status = ItemStatus.encoding → j.id = id := by
  induction items with
  | nil => intro j hj; cases hj
  | cons i rest ih =>
    unfold EncInv at h
    intro j hj henc
    split at h
    · rcases List.mem_cons.mp hj with h1 | h1
      · rename_i hiid
        exact h1 ▸ hiid
      · exact absurd henc (h j h1)
    · rcases List.mem_cons.mp hj with h1 | h1
      · exact absurd (h1 ▸ henc) h.1
      · exact ih h.2 j h1 henc

theorem noEncoding_remove_self (items : List QueueItem) (id : String)
    (h : EncInv items id) : NoEncoding (Queue.Remove items id) := by
  intro j hj habs
  rw [Queue.Remove, List.mem_filter] at hj
  have hjid := encInv_enc_mem_id items id h j hj.1 habs
  have := hj.2
  rw [hjid] at this
  simp at this

theorem noEncoding_append_queued (items : List QueueItem) (item : QueueItem)
    (h : NoEncoding items) (hq : item.status = ItemStatus.queued) :
    NoEncoding (Queue.Add items item) := by
  intro j hj
  rw [Queue.Add] at hj
  rcases List.mem_append.mp hj with h1 | h1
  · exact h j h1
  · have : j = item := by simpa using h1
    rw [this, hq]
    intro habs
    cases habs

theorem encInv_append_queued (items : List QueueItem) (id : String)
    (item : QueueItem) (h : EncInv items id)
    (hq : item.status ≠ ItemStatus.encoding) :
    EncInv (Queue.Add items item) id := by
  rw [Queue.Add]
  induction items with
  | nil =>
    unfold EncInv
    simp only [List.nil_append]
    split
    · intro j hj
      cases hj
    · exact ⟨hq, trivial⟩
  | cons i rest ih =>
    unfold EncInv at h
    unfold EncInv
    simp only [List.cons_append]
    split at h
    · rw [if_pos (by assumption)]
      intro j hj
      rcases List.mem_append.mp hj with h1 | h1
      · exact h j h1
      · have : j = item := by simpa using h1
        exact this ▸ hq
    · rw [if_neg (by assumption)]
      exact ⟨h.1, ih h.2⟩

theorem noEncoding_filter (items : List QueueItem) (p : QueueItem → Bool)
    (h : NoEncoding items) : NoEncoding (items.filter p) :=
  fun j hj => h j (List.mem_filter.mp hj).1

theorem encInv_filter (items : List QueueItem) (id : String)
    (p : QueueItem → Bool) (h : EncInv items id) :
    EncInv (items.filter p) id := by
  induction items with
  | nil => trivial
  | cons i rest ih =>
    unfold EncInv at h
    rw [List.filter_cons]
    split at h
    · split
      · unfold EncInv
        rw [if_pos (by assumption)]
        exact fun j hj => h j (List.mem_filter.mp hj).1
      · exact noEncoding_encInv _ id
          (fun j hj => h j (List.mem_filter.mp hj).1)
    · split
      · unfold EncInv
        rw [if_neg (by assumption)]
        exact ⟨h.1, ih h.2⟩
      · exact ih h.2

theorem retryReset_not_encoding (x : QueueItem) :
    (Queue.retryReset x).status ≠ ItemStatus.encoding := by
  unfold Queue.retryReset
  split
  · intro habs
    cases habs
  · rename_i hcond
    intro habs
    exact hcond (Or.inr habs)

theorem noEncoding_retryFailed (items : List QueueItem) :
    NoEncoding (Queue.RetryFailed items) := by
  intro j hj
  rw [Queue.RetryFailed] at hj
  obtain ⟨x, -, hx⟩ := List.mem_map.mp hj
  exact hx ▸ retryReset_not_encoding x

theorem setStatus_f_id (st : ItemStatus) (now : Nat) (x : QueueItem) :
    ((fun (i : QueueItem) => match st with
      | ItemStatus.encoding => { i with status := st, startedAt := some now }
      | ItemStatus.complete => { i with status := st, completedAt := some now }
      | ItemStatus.failed => { i with status := st, completedAt := some now }
      | _ => { i with status := st }) x).id = x.id := by
  cases st <;> rfl

theorem setStatus_f_status (st : ItemStatus) (now : Nat) (x : QueueItem) :
    ((fun (i : QueueItem) => match st with
      | ItemStatus.encoding => { i with status := st, startedAt := some now }
      | ItemStatus.complete => { i with status := st, completedAt := some now }
      | ItemStatus.failed => { i with status := st, completedAt := some now }
      | _ => { i with status := st }) x).status = st := by
  cases st <;> rfl

/-- Every step whose saves succeed preserves the inductive invariant. -/
theorem step_preserves_inv (s s' : SysState) (hstep : Step true s s') (hinv : Inv s) :
    Inv s' := by
  obtain ⟨items, phase⟩ := s
  cases hstep with
  | add sarg item hq =>
    cases phase with
    | idle => exact noEncoding_append_queued items item hinv hq
    | gotNext id => exact noEncoding_append_queued items item hinv hq
    | working id =>
      exact encInv_append_queued items id item hinv (by rw [hq]; intro h; cases h)
  | envSetStatus sarg id st now hst =>
    cases phase with
    | idle =>
      exact noEncoding_updateFirst items id _
        (fun x hx => absurd ((setStatus_f_status st now x).symm.trans hx) hst) hinv
    | gotNext wid =>
      exact noEncoding_updateFirst items id _
        (fun x hx => absurd ((setStatus_f_status st now x).symm.trans hx) hst) hinv
    | working wid =>
      exact encInv_updateFirst items wid id _ (setStatus_f_id st now)
        (fun x hx => absurd ((setStatus_f_status st now x).symm.trans hx) hst) hinv
  | envUpdateProgress sarg id p =>
    cases phase with
    | idle => exact noEncoding_updateFirst items id _ (fun x hx => hx) hinv
    | gotNext wid => exact noEncoding_updateFirst items id _ (fun x hx => hx) hinv
    | working wid =>
      exact encInv_updateFirst items wid id _ (fun x => rfl) (fun x hx => hx) hinv
  | envFail sarg id e now =>
    cases phase with
    | idle =>
      exact noEncoding_updateFirst items id _ (fun x hx => absurd hx (by intro h; cases h)) hinv
    | gotNext wid =>
      exact noEncoding_updateFirst items id _ (fun x hx => absurd hx (by intro h; cases h)) hinv
    | working wid =>
      exact encInv_updateFirst items wid id _ (fun x => rfl)
        (fun x hx => absurd hx (by intro h; cases h)) hinv
  | envRetryFailed sarg =>
    cases phase with
    | idle => exact noEncoding_retryFailed items
    | gotNext wid => exact noEncoding_retryFailed items
    | working wid => exact noEncoding_encInv _ wid (noEncoding_retryFailed items)
  | envClearCompleted sarg =>
    cases phase with
    | idle => exact noEncoding_filter items _ hinv
    | gotNext wid => exact noEncoding_filter items _ hinv
    | working wid => exact encInv_filter items wid _ hinv
  | envRemove sarg id =>
    cases phase with
    | idle => exact noEncoding_filter items _ hinv
    | gotNext wid => exact noEncoding_filter items _ hinv
    | working wid => exact encInv_filter items wid _ hinv
  | workerGetNext sarg item hphase hget =>
    cases phase with
    | idle => exact hinv
    | gotNext wid => cases hphase
    | working wid => cases hphase
  | workerSetEncoding sarg id now hphase =>
    cases phase with
    | idle => cases hphase
    | gotNext wid =>
      cases hphase
      exact encInv_updateFirst_self items id _ (setStatus_f_id ItemStatus.encoding now) hinv
    | working wid => cases hphase
  | workerComplete sarg id now hphase =>
    cases phase with
    | idle => cases hphase
    | gotNext wid => cases hphase
    | working wid =>
      cases hphase
      exact encInv_clear_self items id _
        (fun x => by intro h; cases h) hinv
  | workerFail sarg id e now hphase =>
    cases phase with
    | idle => cases hphase
    | gotNext wid => cases hphase
    | working wid =>
      cases hphase
      exact encInv_clear_self items id _ (fun x => by intro h; cases h) hinv
  | workerRemove sarg id hphase =>
    cases phase with
    | idle => cases hphase
    | gotNext wid => cases hphase
    | working wid =>
      cases hphase
      exact noEncoding_remove_self items id hinv

/-- C2 (amended: the persistence write accompanying the worker's
mark-Encoding `SetStatus` is assumed to succeed; worker.go:96-99's early
return on a failed save leaves the item Encoding with no terminal
disposition, and the claim as frozen fails there — see
`queue_two_encoding_counterexample`).  In every state reachable from an
initial state (worker idle, no item Encoding — the state after `LoadState`,
see C3) by any interleaving of the queue operations and the worker's use of
them in which that save never fails, at most one item has status
Encoding. -/
theorem queue_at_most_one_encoding (s0 s : SysState)
    (hphase : s0.phase = WorkerPhase.idle) (henc : NoEncoding s0.items)
    (hreach : Relation.ReflTransGen (Step true) s0 s) :
    encCount s.items ≤ 1 := by
  have hinv0 : Inv s0 := by
    obtain ⟨items, phase⟩ := s0
    cases hphase
    exact henc
  have hinv : Inv s := by
    induction hreach with
    | refl => exact hinv0
    | tail hsteps hstep ih => exact step_preserves_inv _ _ hstep ih
  obtain ⟨items, phase⟩ := s
  cases phase with
  | idle =>
    rw [noEncoding_encCount items hinv]
    omega
  | gotNext id =>
    rw [noEncoding_encCount items hinv]
    omega
  | working id => exact encInv_encCount items id hinv

/-- A sample Queued item, for witnesses. -/
def sampleQueuedItem : QueueItem :=
  ⟨"q", "sq", "dq", DiscType.dvd, "nq", "tq", ItemStatus.queued, 0, 7, none, none, ""⟩

/-- Witness for `queue_at_most_one_encoding`: a three-step trace from the
empty idle state — add a Queued item, have the worker pick it, mark it
Encoding. -/
theorem queue_at_most_one_encoding_witness :
    encCount (SysState.mk
      (Queue.SetStatus [sampleQueuedItem] "q" ItemStatus.encoding 3).1
      (WorkerPhase.working "q")).items ≤ 1 := by
  have h1 : Step true (SysState.mk [] WorkerPhase.idle)
      (SysState.mk [sampleQueuedItem] WorkerPhase.idle) :=
    Step.add ⟨[], WorkerPhase.idle⟩ sampleQueuedItem rfl
  have h2 : Step true (SysState.mk [sampleQueuedItem] WorkerPhase.idle)
      (SysState.mk [sampleQueuedItem] (WorkerPhase.gotNext "q")) :=
    Step.workerGetNext ⟨[sampleQueuedItem], WorkerPhase.idle⟩ sampleQueuedItem rfl rfl
  have h3 : Step true (SysState.mk [sampleQueuedItem] (WorkerPhase.gotNext "q"))
      (SysState.mk (Queue.SetStatus [sampleQueuedItem] "q" ItemStatus.encoding 3).1
        (WorkerPhase.working "q")) :=
    Step.workerSetEncoding ⟨[sampleQueuedItem], WorkerPhase.gotNext "q"⟩ "q" 3 rfl
  exact queue_at_most_one_encoding (SysState.mk [] WorkerPhase.idle) _ rfl
    (fun i hi => by cases hi)
    (Relation.ReflTransGen.tail
      (Relation.ReflTransGen.tail
        (Relation.ReflTransGen.tail Relation.ReflTransGen.refl h1) h2) h3)

/-- A second sample Queued item with a distinct id, for the C2
counterexample. -/
def sampleQueuedItem2 : QueueItem :=
  ⟨"q2", "sq2", "dq2", DiscType.dvd, "nq2", "tq2", ItemStatus.queued, 0, 8, none, none, ""⟩

/-- C2 as frozen is false on the code: from the initial queue
`[q Queued, q2 Queued]` (worker idle, nothing Encoding), the worker picks
`q` and marks it Encoding, but `SetStatus` mutates the item *before*
`persistence.Save`, the save fails and `encodeItem` returns early with no
terminal disposition (worker.go:96-99); at the next tick `GetNext` skips
the Encoding `q`, picks `q2` and marks it Encoding too — a state reachable
by the queue operations and the worker's use of them in which two items
have status Encoding at one instant. -/
theorem queue_two_encoding_counterexample :
    (∀ i ∈ [sampleQueuedItem, sampleQueuedItem2], i.status ≠ ItemStatus.encoding) ∧
    Relation.ReflTransGen StepAny
      (SysState.mk [sampleQueuedItem, sampleQueuedItem2] WorkerPhase.idle)
      (SysState.mk
        (Queue.SetStatus
          (Queue.SetStatus [sampleQueuedItem, sampleQueuedItem2] "q"
            ItemStatus.encoding 3).1
          "q2" ItemStatus.encoding 4).1
        (WorkerPhase.working "q2")) ∧
    encCount
      (Queue.SetStatus
        (Queue.SetStatus [sampleQueuedItem, sampleQueuedItem2] "q"
          ItemStatus.encoding 3).1
        "q2" ItemStatus.encoding 4).1 = 2 := by
  refine ⟨by decide, ?_, by decide⟩
  have h1 : StepAny
      (SysState.mk [sampleQueuedItem, sampleQueuedItem2] WorkerPhase.idle)
      (SysState.mk [sampleQueuedItem, sampleQueuedItem2] (WorkerPhase.gotNext "q")) :=
    ⟨true, Step.workerGetNext ⟨[sampleQueuedItem, sampleQueuedItem2], WorkerPhase.idle⟩
      sampleQueuedItem rfl rfl⟩
  have h2 : StepAny
      (SysState.mk [sampleQueuedItem, sampleQueuedItem2] (WorkerPhase.gotNext "q"))
      (SysState.mk
        (Queue.SetStatus [sampleQueuedItem, sampleQueuedItem2] "q"
          ItemStatus.encoding 3).1
        WorkerPhase.idle) :=
    ⟨false, Step.workerSetEncodingSaveFail
      ⟨[sampleQueuedItem, sampleQueuedItem2], WorkerPhase.gotNext "q"⟩ "q" 3 rfl
      (by decide)⟩
  have h3 : StepAny
      (SysState.mk
        (Queue.SetStatus [sampleQueuedItem, sampleQueuedItem2] "q"
          ItemStatus.encoding 3).1
        WorkerPhase.idle)
      (SysState.mk
        (Queue.SetStatus [sampleQueuedItem, sampleQueuedItem2] "q"
          ItemStatus.encoding 3).1
        (WorkerPhase.gotNext "q2")) :=
    ⟨true, Step.workerGetNext
      ⟨(Queue.SetStatus [sampleQueuedItem, sampleQueuedItem2] "q"
          ItemStatus.encoding 3).1, WorkerPhase.idle⟩
      sampleQueuedItem2 rfl (by decide)⟩
  have h4 : StepAny
      (SysState.mk
        (Queue.SetStatus [sampleQueuedItem, sampleQueuedItem2] "q"
          ItemStatus.encoding 3).1
        (WorkerPhase.gotNext "q2"))
      (SysState.mk
        (Queue.SetStatus
          (Queue.SetStatus [sampleQueuedItem, sampleQueuedItem2] "q"
            ItemStatus.encoding 3).1
          "q2" ItemStatus.encoding 4).1
        (WorkerPhase.working "q2")) :=
    ⟨true, Step.workerSetEncoding
      ⟨(Queue.SetStatus [sampleQueuedItem, sampleQueuedItem2] "q"
          ItemStatus.encoding 3).1, WorkerPhase.gotNext "q2"⟩ "q2" 4 rfl⟩
  exact Relation.ReflTransGen.tail
    (Relation.ReflTransGen.tail
      (Relation.ReflTransGen.tail
        (Relation.ReflTransGen.tail Relation.ReflTransGen.refl h1) h2) h3) h4

/-! ## C5: `internal/encode/state.go` persistence round trip

`StatePersistence.Save` marshals the item slice with `encoding/json`
(`MarshalIndent`), writes a temporary file and atomically renames it;
`StatePersistence.Load` reads the file and unmarshals.  `encoding/json` is
Go-standard-library code external to this repository, so it is modelled at
the JSON-value level: `Save` yields the JSON value written to disk, `Load`
decodes a JSON value, mirroring Go unmarshalling of the `QueueItem` field
tags (fields are looked up by key; a missing field keeps the Go zero value;
`started_at`, `completed_at` and `error` carry `omitempty` and are omitted
when nil or empty). -/

/-- JSON values. -/
inductive Json
  | null
  | num (n : Rat)
  | str (s : String)
  | boolean (b : Bool)
  | arr (elems : List Json)
  | obj (fields : List (String × Json))

/-- The integer code of `encode.ItemStatus` (it is a Go `int`). -/
def statusCode : ItemStatus → Rat
  | ItemStatus.queued => 0
  | ItemStatus.encoding => 1
  | ItemStatus.paused => 2
  | ItemStatus.complete => 3
  | ItemStatus.failed => 4

/-- Decoding of an `ItemStatus` code.  The Go `int` type admits codes outside
`0..4`; the five-constructor embedding can only represent the codes the
program itself writes. -/
def statusFromCode (n : Rat) : Option ItemStatus :=
  if n = 0 then some ItemStatus.queued
  else if n = 1 then some ItemStatus.encoding
  else if n = 2 then some ItemStatus.paused
  else if n = 3 then some ItemStatus.complete
  else if n = 4 then some ItemStatus.failed
  else none

/-- The integer code of `disk.DiscType`. -/
def discTypeCode : DiscType → Rat
  | DiscType.dvd => 0
  | DiscType.bluRay => 1

/-- Decoding of a `disk.DiscType` code. -/
def discTypeFromCode (n : Rat) : Option DiscType :=
  if n = 0 then some DiscType.dvd
  else if n = 1 then some DiscType.bluRay
  else none

/-- Key lookup among the fields of a JSON object (first match, as
`encoding/json` keeps the last... the program never emits duplicate keys). -/
def getField : List (String × Json) → String → Option Json
  | [], _ => none
  | (k, v) :: rest, key => if key = k then some v else getField rest key

/-- Unmarshal a string field: missing means the zero value `""`. -/
def decodeStr : Option Json → Option String
  | none => some ""
  | some (Json.str s) => some s
  | some _ => none

/-- Unmarshal a `float64` field: missing means `0`. -/
def decodeNum : Option Json → Option Rat
  | none => some 0
  | some (Json.num n) => some n
  | some _ => none

/-- Unmarshal a time instant (modelled as `Nat`): missing means the zero
instant. -/
def decodeNat : Option Json → Option Nat
  | none => some 0
  | some (Json.num n) => if n.den = 1 ∧ 0 ≤ n.num then some n.num.toNat else none
  | some _ => none

/-- Unmarshal an optional (`*time.Time`) instant: missing or null means
nil. -/
def decodeOptNat : Option Json → Option (Option Nat)
  | none => some none
  | some Json.null => some none
  | some (Json.num n) => if n.den = 1 ∧ 0 ≤ n.num then some (some n.num.toNat) else none
  | some _ => none

/-- Unmarshal the status field: missing means the zero status (Queued). -/
def decodeStatus : Option Json → Option ItemStatus
  | none => some ItemStatus.queued
  | some (Json.num n) => statusFromCode n
  | some _ => none

/-- Unmarshal the disc-type field: missing means the zero type (DVD). -/
def decodeDiscType : Option Json → Option DiscType
  | none => some DiscType.dvd
  | some (Json.num n) => discTypeFromCode n
  | some _ => none

/-- Marshalling of one `QueueItem`, following the `json:"…"` field tags of
`encode.QueueItem` (with `omitempty` on `started_at`, `completed_at`,
`error`). -/
def encodeQueueItem (i : QueueItem) : Json :=
  Json.obj
    ([("id", Json.str i.id),
      ("source_path", Json.str i.sourcePath),
      ("dest_path", Json.str i.destPath),
      ("disc_type", Json.num (discTypeCode i.discType)),
      ("disc_name", Json.str i.discName),
      ("title_name", Json.str i.titleName),
      ("status", Json.num (statusCode i.status)),
      ("progress", Json.num i.progress),
      ("created_at", Json.num i.createdAt)]
     ++ (match i.startedAt with
         | none => []
         | some t => [("started_at", Json.num t)])
     ++ (match i.completedAt with
         | none => []
         | some t => [("completed_at", Json.num t)])
     ++ (if i.error = "" then [] else [("error", Json.str i.error)]))

/-- Unmarshalling of one `QueueItem`. -/
def decodeQueueItem : Json → Option QueueItem
  | Json.obj fields => do
      let id ← decodeStr (getField fields "id")
      let sourcePath ← decodeStr (getField fields "source_path")
      let destPath ← decodeStr (getField fields "dest_path")
      let discType ← decodeDiscType (getField fields "disc_type")
      let discName ← decodeStr (getField fields "disc_name")
      let titleName ← decodeStr (getField fields "title_name")
      let status ← decodeStatus (getField fields "status")
      let progress ← decodeNum (getField fields "progress")
      let createdAt ← decodeNat (getField fields "created_at")
      let startedAt ← decodeOptNat (getField fields "started_at")
      let completedAt ← decodeOptNat (getField fields "completed_at")
      let error ← decodeStr (getField fields "error")
      pure ⟨id, sourcePath, destPath, discType, discName, titleName, status,
        progress, createdAt, startedAt, completedAt, error⟩
  | _ => none

namespace StatePersistence

/-- `StatePersistence.Save`: the JSON value marshalled and atomically written
to the state file. -/
def Save (items : List QueueItem) : Json :=
  Json.arr (items.map encodeQueueItem)

/-- `StatePersistence.Load`: unmarshal the state file's JSON value. -/
def Load : Json → Option (List QueueItem)
  | Json.arr elems => elems.mapM decodeQueueItem
  | Json.null => some []
  | _ => none

end StatePersistence

theorem statusFromCode_statusCode (st : ItemStatus) :
    statusFromCode (statusCode st) = some st := by
  cases st <;> decide

theorem discTypeFromCode_discTypeCode (d : DiscType) :
    discTypeFromCode (discTypeCode d) = some d := by
  cases d <;> decide

theorem decodeNat_natCast (t : Nat) :
    decodeNat (some (Json.num (t : Rat))) = some t := by
  simp [decodeNat]

theorem decodeOptNat_natCast (t : Nat) :
    decodeOptNat (some (Json.num (t : Rat))) = some (some t) := by
  simp [decodeOptNat]

theorem decode_encode_queueItem (i : QueueItem) :
    decodeQueueItem (encodeQueueItem i) = some i := by
  obtain ⟨id, sourcePath, destPath, discType, discName, titleName, status,
    progress, createdAt, startedAt, completedAt, error⟩ := i
  by_cases herr : error = ""
  · subst herr
    cases startedAt <;> cases completedAt <;>
      simp [encodeQueueItem, decodeQueueItem, getField, decodeStr, decodeNum,
        decodeStatus, decodeDiscType, statusFromCode_statusCode,
        discTypeFromCode_discTypeCode, decodeNat_natCast, decodeOptNat_natCast,
        decodeNat, decodeOptNat]
  · cases startedAt <;> cases completedAt <;>
      simp [encodeQueueItem, decodeQueueItem, getField, decodeStr, decodeNum,
        decodeStatus, decodeDiscType, statusFromCode_statusCode,
        discTypeFromCode_discTypeCode, decodeNat_natCast, decodeOptNat_natCast,
        decodeNat, decodeOptNat, herr]

theorem mapM_decode_encode (items : List QueueItem) :
    (items.map encodeQueueItem).mapM decodeQueueItem = some items := by
  induction items with
  | nil => rfl
  | cons i rest ih =>
    rw [List.map_cons, List.mapM_cons, decode_encode_queueItem, ih]
    rfl

/-- C5 (theorem).  See the doc comment above. -/
theorem state_save_load_roundtrip (items : List QueueItem) :
    StatePersistence.Load (StatePersistence.Save items) = some items :=
  mapM_decode_encode items

/-! ## C6: `ParseInfo` and the title order

`ParseInfo` accumulates per-title attributes in a Go map keyed by title id
and finally converts the map to a slice with `for _, title := range
titleMap`.  The contents of the map are deterministic and are embedded as an
insertion-ordered association list; the *iteration order* of a Go map range
is unspecified (and randomised by the runtime), so the embedding takes it as
an explicit parameter `mapOrder`, a permutation of the map's keys.

The Lean core `String` functions are implemented through runtime-opaque
auxiliaries, so the Go `strings` functions used by the parser are embedded
directly on character lists to stay kernel-executable. -/

/-- `strings.Split` on character lists, for a one-character separator (every
separator the parser uses — `"\\n"`, `":"`, `","` — is one byte). -/
def splitOnChar (sep : Char) : List Char → List (List Char)
  | [] => [[]]
  | c :: rest =>
    if c == sep then [] :: splitOnChar sep rest
    else
      match splitOnChar sep rest with
      | [] => [[c]]
      | chunk :: chunks => (c :: chunk) :: chunks

/-- `strings.Split s sep` for a one-character separator. -/
def strSplitOn (s : String) (sep : Char) : List String :=
  (splitOnChar sep s.toList).map String.mk

/-- `strings.TrimSpace`. -/
def strTrimSpace (s : String) : String :=
  String.mk
    (((s.toList.dropWhile Char.isWhitespace).reverse.dropWhile
      Char.isWhitespace).reverse)

/-- `strings.ToLower` (the markers searched for are ASCII). -/
def strToLower (s : String) : String :=
  String.mk (s.toList.map Char.toLower)

/-- `s[n:]` on a string (byte indices in Go; the prefixes sliced off here are
ASCII). -/
def strDropChars (s : String) (n : Nat) : String :=
  String.mk (s.toList.drop n)

/-- `strings.Join` of the tail pieces that `strings.SplitN` leaves
unsplit. -/
def intercalateChars (sep : List Char) : List (List Char) → List Char
  | [] => []
  | [x] => x
  | x :: xs => x ++ sep ++ intercalateChars sep xs

/-- `makemkv.extractQuotedValue`: the text between the first and the last
double quote, or `""`. -/
def extractQuotedValue (s : String) : String :=
  let cs := s.toList
  match cs.findIdx? (fun c => c == '"') with
  | none => ""
  | some start =>
    match cs.reverse.findIdx? (fun c => c == '"') with
    | none => ""
    | some revIdx =>
      let lastIdx := cs.length - 1 - revIdx
      if start < lastIdx then
        String.mk ((cs.drop (start + 1)).take (lastIdx - start - 1))
      else ""

/-- `strings.SplitN(s, sep, 4)`: at most four pieces, the last keeping the
remaining separators. -/
def splitN4 (s : String) (sep : Char) : List String :=
  let ps := strSplitOn s sep
  if ps.length ≤ 4 then ps
  else ps.take 3 ++
    [String.mk (intercalateChars [sep] ((ps.drop 3).map String.toList))]

/-- `makemkv.parseDuration`: `"H:MM:SS"` to nanoseconds; `0` on any other
shape; a field `strconv.Atoi` rejects contributes `0`. -/
def parseDuration (s : String) : Int :=
  match strSplitOn s ':' with
  | [h, m, sec] =>
    (atoi h).getD 0 * 3600000000000 + (atoi m).getD 0 * 60000000000 +
      (atoi sec).getD 0 * 1000000000
  | _ => 0

/-- Lookup in the title map (contents of Go's `titleMap`). -/
def getTitleEntry (titleMap : List (Int × Title)) (k : Int) : Option Title :=
  (titleMap.find? (fun p => p.1 == k)).map Prod.snd

/-- Map store: replace the entry in place, or append a new key (Go map
assignment; insertion order tracks first encounter). -/
def setTitleEntry : List (Int × Title) → Int → Title → List (Int × Title)
  | [], k, t => [(k, t)]
  | (k', t') :: rest, k, t =>
    if k' == k then (k', t) :: rest else (k', t') :: setTitleEntry rest k t

/-- `makemkv.parseTitleInfo`: dissect a `TINFO:titleID,attributeID,source,
"value"` line and update the title map. -/
def parseTitleInfo (line : String) (titleMap : List (Int × Title)) :
    List (Int × Title) :=
  match splitN4 (strDropChars line 6) ',' with
  | [p0, p1, _, p3] =>
    match atoi p0 with
    | none => titleMap
    | some titleID =>
      match atoi p1 with
      | none => titleMap
      | some attributeID =>
        let value := extractQuotedValue p3
        let t := (getTitleEntry titleMap titleID).getD
          { id := titleID, duration := 0, name := "", size := 0, chapters := 0 }
        let updated :=
          if attributeID == 2 then { t with name := value }
          else if attributeID == 9 then { t with duration := parseDuration value }
          else if attributeID == 10 then { t with size := (atoi value).getD 0 }
          else if attributeID == 8 then { t with chapters := (atoi value).getD 0 }
          else t
        setTitleEntry titleMap titleID updated
  | _ => titleMap

/-- `makemkv.ScanResult` (`discType` is the Go string field). -/
structure ScanResult where
  titles : List Title
  discName : String
  discType : String
deriving DecidableEq, Repr

/-- The accumulator of `ParseInfo`'s line loop. -/
structure InfoAcc where
  discName : String
  discType : String
  titleMap : List (Int × Title)
deriving DecidableEq, Repr

/-- One iteration of `ParseInfo`'s line loop: trim, skip empty, disc-name
record, disc-type substring detection, `TINFO` records. -/
def parseInfoStep (acc : InfoAcc) (rawLine : String) : InfoAcc :=
  let line := strTrimSpace rawLine
  if line = "" then acc
  else
    let acc1 :=
      if strHasPre line "CINFO:2,0,\"" then
        { acc with discName := extractQuotedValue line }
      else acc
    let acc2 :=
      if strContains (strToLower line) "blu-ray" ||
          strContains (strToLower line) "bd-rom" then
        { acc1 with discType := "Blu-ray" }
      else if strContains (strToLower line) "dvd" then
        (if acc1.discType = "" then { acc1 with discType := "DVD" } else acc1)
      else acc1
    if strHasPre line "TINFO:" then
      { acc2 with titleMap := parseTitleInfo line acc2.titleMap }
    else acc2

/-- The contents of `titleMap` after `ParseInfo`'s line loop, in first-
encounter order of the title ids. -/
def titleMapOf (output : String) : List (Int × Title) :=
  ((strSplitOn output '\n').foldl parseInfoStep ⟨"", "", []⟩).titleMap

/-- The title ids in the order first encountered in the scan output. -/
def scanOrderKeys (output : String) : List Int :=
  (titleMapOf output).map Prod.fst

/-- `makemkv.ParseInfo`.  `mapOrder` is the order in which the final
`for _, title := range titleMap` loop visits the map's keys: Go leaves it
unspecified, so it is a parameter (a permutation of the keys).  Titles with
zero duration are discarded; the disc type defaults to `"DVD"`.  The Go
function's error result is always nil. -/
def ParseInfo (output : String) (mapOrder : List Int) : ScanResult :=
  let acc := (strSplitOn output '\n').foldl parseInfoStep ⟨"", "", []⟩
  let discType := if acc.discType = "" then "DVD" else acc.discType
  let titles := mapOrder.foldl (fun ts k =>
    match getTitleEntry acc.titleMap k with
    | some t => if t.duration > 0 then ts ++ [t] else ts
    | none => ts) []
  ⟨titles, acc.discName, discType⟩

/-- C6 (code bug).  On a scan output declaring title 1 before title 2, a map
iteration order that visits key 2 first — a legal Go map range order — makes
`ParseInfo` return the titles out of scan order, while iterating in
first-encounter order returns them in scan order: the slice order is
whatever the map range yields, not the scan order the spec requires. -/
theorem parseInfo_map_order_bug :
    ([2, 1] : List Int).Perm
      (scanOrderKeys "TINFO:1,9,0,\"0:30:00\"\nTINFO:2,9,0,\"0:25:00\"") ∧
    (ParseInfo "TINFO:1,9,0,\"0:30:00\"\nTINFO:2,9,0,\"0:25:00\"" [2, 1]).titles.map
      Title.id = [2, 1] ∧
    (ParseInfo "TINFO:1,9,0,\"0:30:00\"\nTINFO:2,9,0,\"0:25:00\""
      (scanOrderKeys "TINFO:1,9,0,\"0:30:00\"\nTINFO:2,9,0,\"0:25:00\"")).titles.map
      Title.id = [1, 2] ∧
    (ParseInfo "TINFO:1,9,0,\"0:30:00\"\nTINFO:2,9,0,\"0:25:00\"" [2, 1]).titles ≠
      (ParseInfo "TINFO:1,9,0,\"0:30:00\"\nTINFO:2,9,0,\"0:25:00\""
        (scanOrderKeys "TINFO:1,9,0,\"0:30:00\"\nTINFO:2,9,0,\"0:25:00\"")).titles := by
  decide

/-! ## C8: the worker's terminal disposition of one encode

`Worker.handleControl` maintains two flags (`paused`,
`shouldDeleteCurrent`); `Stop` clears and `Delete` sets the delete flag
(and both cancel the running encoder, a process side effect outside the
queue model), while `Pause`/`Resume` leave it alone.  When
`handbrake.Encode` returns, `encodeItem` (worker.go:138-172) inspects the
error and the flag and applies exactly one queue operation. -/

/-- `encode.WorkerControl`. -/
inductive WorkerControl
  | pause
  | resume
  | stop
  | delete
deriving DecidableEq, Repr

/-- `Worker.handleControl` on the state `(paused, shouldDeleteCurrent)`. -/
def handleControl (st : Bool × Bool) (c : WorkerControl) : Bool × Bool :=
  match c with
  | WorkerControl.pause => (true, st.2)
  | WorkerControl.resume => (false, st.2)
  | WorkerControl.stop => (st.1, false)
  | WorkerControl.delete => (st.1, true)

/-- The `shouldDeleteCurrent` flag after a history of control commands,
from the zero-value initial state. -/
def deleteFlagAfter (history : List WorkerControl) : Bool :=
  (history.foldl handleControl (false, false)).2

/-- The classification `strings.Contains(errStr, "killed") ||
strings.Contains(errStr, "signal")` of worker.go:144. -/
def isKillErrText (errStr : String) : Bool :=
  strContains errStr "killed" || strContains errStr "signal"

/-- The tail of `Worker.encodeItem`: the terminal disposition of one encode.
`encodeErr` is the result of `handbrake.Encode` (`none` for a nil error,
`some errStr` otherwise).  Returns the queue after the one disposition
operation together with the `shouldDeleteCurrent` flag afterwards (the
delete path resets it). -/
def encodeItemFinish (items : List QueueItem) (id : String)
    (shouldDeleteCurrent : Bool) (encodeErr : Option String) (now : Nat) :
    List QueueItem × Bool :=
  match encodeErr with
  | some errStr =>
    if isKillErrText errStr then
      if shouldDeleteCurrent then (Queue.Remove items id, false)
      else ((Queue.Fail items id "cancelled by user" now).1, shouldDeleteCurrent)
    else ((Queue.Fail items id errStr now).1, shouldDeleteCurrent)
  | none => ((Queue.Complete items id now).1, shouldDeleteCurrent)

theorem find?_updateFirst (items : List QueueItem) (id : String)
    (f : QueueItem → QueueItem) (hid : ∀ x, (f x).id = x.id) (it : QueueItem)
    (hfind : items.find? (fun i => i.id == id) = some it) :
    (Queue.updateFirst items id f).1.find? (fun i => i.id == id) = some (f it) := by
  induction items with
  | nil => cases hfind
  | cons i rest ih =>
    unfold Queue.updateFirst
    by_cases heq : i.id = id
    · rw [if_pos heq]
      rw [List.find?_cons_of_pos _ (by simpa using heq)] at hfind
      cases hfind
      show List.find? (fun j => j.id == id) (f it :: rest) = some (f it)
      rw [List.find?_cons_of_pos _ (by simp [hid it, heq])]
    · rw [if_neg heq]
      rw [List.find?_cons_of_neg _ (by simpa using heq)] at hfind
      show List.find? (fun i => i.id == id) (i :: (Queue.updateFirst rest id f).1) =
        some (f it)
      rw [List.find?_cons_of_neg _ (by simpa using heq)]
      exact ih hfind

theorem find?_remove_none (items : List QueueItem) (id : String) :
    (Queue.Remove items id).find? (fun i => i.id == id) = none := by
  rw [List.find?_eq_none]
  intro x hx
  rw [Queue.Remove, List.mem_filter] at hx
  simpa using hx.2

/-- C8 (amended: "the last control command was Delete" becomes "the
`shouldDeleteCurrent` flag is set, i.e. the most recent Stop-or-Delete
command was a Delete"; Pause/Resume do not touch the flag).  Worker terminal
disposition for the item the worker holds: a nil encode error marks it
Complete; an error classified as signal/kill termination removes it from
the queue when the delete flag is set and otherwise marks it Failed with
the synthetic reason `"cancelled by user"`; any other error marks it Failed
with the captured error text. -/
theorem encodeItem_disposition_spec (items : List QueueItem) (id : String)
    (history : List WorkerControl) (encodeErr : Option String) (now : Nat)
    (it : QueueItem)
    (hfind : items.find? (fun i => i.id == id) = some it) :
    (encodeErr = none →
      (encodeItemFinish items id (deleteFlagAfter history) encodeErr now).1.find?
          (fun i => i.id == id) =
        some { it with status := ItemStatus.complete, completedAt := some now }) ∧
    (∀ msg, encodeErr = some msg → isKillErrText msg = true →
      (deleteFlagAfter history = true →
        (encodeItemFinish items id (deleteFlagAfter history) encodeErr now).1.find?
            (fun i => i.id == id) = none) ∧
      (deleteFlagAfter history = false →
        (encodeItemFinish items id (deleteFlagAfter history) encodeErr now).1.find?
            (fun i => i.id == id) =
          some { it with
              status := ItemStatus.failed
              error := "cancelled by user"
              completedAt := some now })) ∧
    (∀ msg, encodeErr = some msg → isKillErrText msg = false →
      (encodeItemFinish items id (deleteFlagAfter history) encodeErr now).1.find?
          (fun i => i.id == id) =
        some { it with
            status := ItemStatus.failed
            error := msg
            completedAt := some now }) := by
  refine ⟨?_, ?_, ?_⟩
  · intro hnone
    subst hnone
    exact find?_updateFirst items id
      (fun i => { i with status := ItemStatus.complete, completedAt := some now })
      (fun x => rfl) it hfind
  · intro msg hsome hkill
    subst hsome
    constructor
    · intro hflag
      simp only [encodeItemFinish, hkill, hflag, if_true]
      exact find?_remove_none items id
    · intro hflag
      simp only [encodeItemFinish, hkill, hflag, if_true, if_false,
        Bool.false_eq_true]
      exact find?_updateFirst items id
        (fun i => { i with
            status := ItemStatus.failed
            error := "cancelled by user"
            completedAt := some now })
        (fun x => rfl) it hfind
  · intro msg hsome hkill
    subst hsome
    simp only [encodeItemFinish, hkill, Bool.false_eq_true, if_false]
    exact find?_updateFirst items id
      (fun i => { i with
          status := ItemStatus.failed
          error := msg
          completedAt := some now })
      (fun x => rfl) it hfind

/-- Witness for `encodeItem_disposition_spec`: one-item queue, history
`[Stop, Delete]`, outcome evaluated on a kill error. -/
theorem encodeItem_disposition_spec_witness :
    ((some "signal: killed" : Option String) = none →
      (encodeItemFinish [sampleEncodingItem] "a"
          (deleteFlagAfter [WorkerControl.stop, WorkerControl.delete])
          (some "signal: killed") 5).1.find? (fun i => i.id == "a") =
        some { sampleEncodingItem with
            status := ItemStatus.complete
            completedAt := some 5 }) ∧
    (∀ msg, (some "signal: killed" : Option String) = some msg →
      isKillErrText msg = true →
      (deleteFlagAfter [WorkerControl.stop, WorkerControl.delete] = true →
        (encodeItemFinish [sampleEncodingItem] "a"
            (deleteFlagAfter [WorkerControl.stop, WorkerControl.delete])
            (some "signal: killed") 5).1.find? (fun i => i.id == "a") = none) ∧
      (deleteFlagAfter [WorkerControl.stop, WorkerControl.delete] = false →
        (encodeItemFinish [sampleEncodingItem] "a"
            (deleteFlagAfter [WorkerControl.stop, WorkerControl.delete])
            (some "signal: killed") 5).1.find? (fun i => i.id == "a") =
          some { sampleEncodingItem with
              status := ItemStatus.failed
              error := "cancelled by user"
              completedAt := some 5 })) ∧
    (∀ msg, (some "signal: killed" : Option String) = some msg →
      isKillErrText msg = false →
      (encodeItemFinish [sampleEncodingItem] "a"
          (deleteFlagAfter [WorkerControl.stop, WorkerControl.delete])
          (some "signal: killed") 5).1.find? (fun i => i.id == "a") =
        some { sampleEncodingItem with
            status := ItemStatus.failed
            error := msg
            completedAt := some 5 }) :=
  encodeItem_disposition_spec [sampleEncodingItem] "a"
    [WorkerControl.stop, WorkerControl.delete] (some "signal: killed") 5
    sampleEncodingItem (by decide)

/-- The claim as frozen is false: after the history `[Delete, Pause]` the
last control command is Pause, not Delete, so the claim requires the
kill-terminated item to be marked Failed("cancelled by user"); but
`shouldDeleteCurrent` was set by the Delete and survives the Pause, so the
code removes the item from the queue. -/
theorem encodeItem_last_command_counterexample :
    List.getLast? [WorkerControl.delete, WorkerControl.pause] ≠
      some WorkerControl.delete ∧
    deleteFlagAfter [WorkerControl.delete, WorkerControl.pause] = true ∧
    (encodeItemFinish [sampleEncodingItem] "a"
        (deleteFlagAfter [WorkerControl.delete, WorkerControl.pause])
        (some "signal: killed") 5).1 = [] ∧
    (encodeItemFinish [sampleEncodingItem] "a"
        (deleteFlagAfter [WorkerControl.delete, WorkerControl.pause])
        (some "signal: killed") 5).1 ≠
      (Queue.Fail [sampleEncodingItem] "a" "cancelled by user" 5).1 := by
  decide

end Mkvauto
